import Mathlib

/-!
# Verification of the billing-engine repayment ledger (src/main.go)

Shallow embedding of the Go source. Monetary `float64` fields are modelled
as exact rationals (`ℚ`); the store (`gorm`/Postgres) is modelled as explicit
in-memory lists of rows with primary-key ids, and the Redis cache as an
association list of string keys with TTL metadata. Fallible store writes and
the final transaction commit are driven by explicit failure flags, so that
the rollback behaviour of `db.Transaction` is expressible: on any failure the
database value returned is the pre-transaction one.
-/

namespace Billing

/-- `Loan` model (src/main.go lines 23-31). `CreatedAt` carries no logic and
is not modelled. -/
structure Loan where
  id : Nat
  borrowerID : Nat
  amount : ℚ
  interestRate : ℚ
  weeklyPayment : ℚ
  remainingBalance : ℚ
deriving DecidableEq

/-- `Repayment` model (src/main.go lines 34-40). -/
structure Repayment where
  id : Nat
  loanID : Nat
  weekNo : Nat
  paid : Bool
deriving DecidableEq

/-- The relational store: the two tables plus the auto-increment counters
Postgres uses to assign primary keys (both sequences start at 1). -/
structure DB where
  loans : List Loan
  repayments : List Repayment
  nextLoanID : Nat
  nextRepID : Nat
deriving DecidableEq

def emptyDB : DB := ⟨[], [], 1, 1⟩

/-- One Redis entry: key, string value, TTL in seconds. -/
structure CacheEntry where
  key : String
  value : String
  ttlSeconds : Nat
deriving DecidableEq

/-- The Redis cache. -/
structure Cache where
  entries : List CacheEntry
deriving DecidableEq

def emptyCache : Cache := ⟨[]⟩

def cacheGet (c : Cache) (k : String) : Option String :=
  (c.entries.find? (fun e => e.key == k)).map CacheEntry.value

/-- `redisClient.Set`: overwrite the entry for the key. -/
def cacheSet (c : Cache) (k v : String) (ttl : Nat) : Cache :=
  ⟨⟨k, v, ttl⟩ :: c.entries.filter (fun e => e.key != k)⟩

/-- `redisClient.Del`: remove the entry for the key. -/
def cacheDel (c : Cache) (k : String) : Cache :=
  ⟨c.entries.filter (fun e => e.key != k)⟩

/-- Cache key `loan:{id}:outstanding` (src/main.go line 81). -/
def outKey (id : Nat) : String := "loan:" ++ toString id ++ ":outstanding"

/-- Cache key `loan:{id}:delinquent` (src/main.go line 149). -/
def delKey (id : Nat) : String := "loan:" ++ toString id ++ ":delinquent"

/-- Fixed-point rendering of `fmt.Sprintf("%f", x)`: six decimal places.
(Go rounds the binary float to nearest; on the exact rationals we model this
as round half up, which agrees on all inputs the claims touch.) -/
def fmtF (q : ℚ) : String :=
  let sign := if q < 0 then "-" else ""
  let n : ℤ := ⌊|q| * 1000000 + 1 / 2⌋
  let frac := toString (n % 1000000).toNat
  sign ++ toString (n / 1000000) ++ "." ++
    String.mk (List.replicate (6 - frac.length) (Char.ofNat 48)) ++ frac

/-- `strconv.FormatBool`. -/
def formatBool (b : Bool) : String := if b then "true" else "false"

/-- `strconv.ParseBool`, with the error ignored as in src/main.go line 153:
any unparseable value leaves the zero value `false`. -/
def parseBool (s : String) : Bool :=
  ["1", "t", "T", "TRUE", "true", "True"].contains s

/-- `db.First(&loan, id)` / the row returned by `SELECT * FROM loans WHERE
id = ?`: the unique loan row with this primary key, if any. -/
def findLoan (db : DB) (id : Nat) : Option Loan :=
  db.loans.find? (fun l => l.id == id)

/-- The zero `Loan` value that a gorm `Scan` leaves behind when the query
returns no row (all fields zero). -/
def zeroLoan : Loan := ⟨0, 0, 0, 0, 0, 0⟩

/-- The loan's repayment rows (`WHERE loan_id = ?`). -/
def repaymentsOf (db : DB) (lid : Nat) : List Repayment :=
  db.repayments.filter (fun r => r.loanID == lid)

def pickMin (acc : Option Repayment) (r : Repayment) : Option Repayment :=
  match acc with
  | none => some r
  | some a => if r.weekNo < a.weekNo then some r else some a

/-- `tx.Where("loan_id = ? AND paid = ?", loan.ID, false).Order("week_no
asc").First(&repayment)` (src/main.go lines 112-113): the unpaid repayment
row of the loan with the smallest week number, if any. -/
def minUnpaid (db : DB) (lid : Nat) : Option Repayment :=
  ((repaymentsOf db lid).filter (fun r => !r.paid)).foldl pickMin none

/-- gorm `Save` on a `Repayment`: with a zero primary key it inserts a fresh
row; with a nonzero key it updates the row with that key (updating no row if
none matches — it never inserts in that case). -/
def saveRepayment (db : DB) (r : Repayment) : DB :=
  if r.id == 0 then
    { db with repayments := db.repayments ++ [{ r with id := db.nextRepID }],
              nextRepID := db.nextRepID + 1 }
  else
    { db with repayments :=
        db.repayments.map (fun x => if x.id == r.id then r else x) }

/-- gorm `Save` on a `Loan`, same key-based update semantics. -/
def saveLoan (db : DB) (l : Loan) : DB :=
  if l.id == 0 then
    { db with loans := db.loans ++ [{ l with id := db.nextLoanID }],
              nextLoanID := db.nextLoanID + 1 }
  else
    { db with loans := db.loans.map (fun x => if x.id == l.id then l else x) }

/-- `createLoan` (src/main.go lines 58-76), after a successful JSON bind:
overwrite rate/payment/balance, insert the loan, then insert the 50 schedule
rows one `db.Create` at a time (no surrounding transaction). Returns the
stored loan. `0.10` is the exact rational 1/10. -/
def createLoan (db : DB) (borrowerID : Nat) (amount : ℚ) : DB × Loan :=
  let l : Loan :=
    { id := db.nextLoanID
      borrowerID := borrowerID
      amount := amount
      interestRate := 1 / 10
      weeklyPayment := amount * (1 + 1 / 10) / 50
      remainingBalance := amount * (1 + 1 / 10) }
  (⟨db.loans ++ [l],
    db.repayments ++ (List.range 50).map (fun i =>
      { id := db.nextRepID + i, loanID := l.id, weekNo := i + 1, paid := false }),
    db.nextLoanID + 1,
    db.nextRepID + 50⟩, l)

/-- The store state after the loan insert and only the first `k` of the 50
repayment inserts of `createLoan`. Because src/main.go lines 68-73 issue 51
independent auto-committed `db.Create` calls with no transaction, each of
these intermediate states is a committed, observable store state (a crash
after the k-th insert leaves exactly this state). -/
def createLoanUpTo (db : DB) (borrowerID : Nat) (amount : ℚ) (k : Nat) : DB :=
  let l := (createLoan db borrowerID amount).2
  ⟨db.loans ++ [l],
   db.repayments ++ (List.range (min k 50)).map (fun i =>
     { id := db.nextRepID + i, loanID := l.id, weekNo := i + 1, paid := false }),
   db.nextLoanID + 1,
   db.nextRepID + min k 50⟩

/-- Result of `createLoan` at the HTTP boundary. -/
inductive CreateResult where
  | ok (l : Loan)
  | invalidInput
deriving DecidableEq

/-- The whole `createLoan` handler: `ShouldBindJSON` fails only when the
request body does not bind (`bindOk = false`) — the struct carries no
validation tags, so the principal's sign is never checked. -/
def createLoanHandler (db : DB) (bindOk : Bool) (borrowerID : Nat)
    (amount : ℚ) : DB × CreateResult :=
  if bindOk then
    let p := createLoan db borrowerID amount
    (p.1, .ok p.2)
  else
    (db, .invalidInput)

/-- Failure injection points for the payment unit of work: the two `Save`
calls inside the transaction closure and the final commit that
`db.Transaction` performs when the closure returns nil. (The initial
`SELECT ... FOR UPDATE` is modelled as always reaching the store; note that
gorm's `Raw(...).Scan` reports NO error when the query returns zero rows, so
the `err != nil` check on src/main.go line 106 does not fire for a missing
loan — the 404 branch is dead on that path.) -/
structure Fail where
  failSaveRepayment : Bool
  failSaveLoan : Bool
  failCommit : Bool
deriving DecidableEq

def noFail : Fail := ⟨false, false, false⟩

def commitFail : Fail := ⟨false, false, true⟩

/-- Effective HTTP response of `makePayment`. When the closure both writes an
error response and returns an error, gin has already written the first
response when the outer `c.JSON(500, ...)` runs, so the first write is the
effective one. `notFound` (the 404 of line 107) is reachable only through a
store-level failure of the initial scan, never through a missing row. -/
inductive PayResult where
  | success (newBalance : ℚ)
  | notFound
  | noPendingRepayment
  | transactionFailed
deriving DecidableEq

/-- `makePayment` (src/main.go lines 101-143). Inside `db.Transaction`:
scan the loan row (`Scan` leaves the zero `Loan` and no error when the row
is absent), pick the lowest-week unpaid repayment (none found → 400 and
rollback), mark it paid and save, decrement the balance and save, then —
still inside the closure, before commit — overwrite the outstanding cache
entry (TTL 600s) and delete the delinquency entry. A failed save rolls the
store back with the cache untouched; a failed commit rolls the store back
after the cache writes have already happened. -/
def makePayment (db : DB) (c : Cache) (id : Nat) (f : Fail) :
    DB × Cache × PayResult :=
  let loan := (findLoan db id).getD zeroLoan
  match minUnpaid db loan.id with
  | none => (db, c, .noPendingRepayment)
  | some rep =>
    if f.failSaveRepayment then (db, c, .transactionFailed)
    else
      let db1 := saveRepayment db { rep with paid := true }
      if f.failSaveLoan then (db, c, .transactionFailed)
      else
        let loan1 :=
          { loan with remainingBalance := loan.remainingBalance - loan.weeklyPayment }
        let db2 := saveLoan db1 loan1
        let c1 := cacheSet c (outKey id) (fmtF loan1.remainingBalance) 600
        let c2 := cacheDel c1 (delKey id)
        if f.failCommit then (db, c2, .transactionFailed)
        else (db2, c2, .success loan1.remainingBalance)

/-- A JSON scalar as it appears in the `remaining_balance` field of a
response: gin serialises a Go `string` and a Go `float64` differently. -/
inductive JsonVal where
  | str (s : String)
  | num (q : ℚ)
deriving DecidableEq

inductive GetResult where
  | ok (v : JsonVal)
  | notFound
deriving DecidableEq

/-- `getOutstanding` (src/main.go lines 79-98): on a cache hit return the
cached string verbatim; on a miss load the loan (`First` leaves the zero
loan on no row, detected by `loan.ID == 0`; created loans always have a
positive id), repopulate the cache with the `%f` rendering, and return the
numeric balance. -/
def getOutstanding (db : DB) (c : Cache) (id : Nat) : Cache × GetResult :=
  match cacheGet c (outKey id) with
  | some v => (c, .ok (.str v))
  | none =>
    match findLoan db id with
    | none => (c, .notFound)
    | some l =>
      (cacheSet c (outKey id) (fmtF l.remainingBalance) 600,
       .ok (.num l.remainingBalance))

inductive DelResult where
  | ok (b : Bool)
  | notFound
deriving DecidableEq

/-- `isDelinquent` (src/main.go lines 146-171): cache hit parses the cached
boolean string; miss loads the loan and counts its unpaid repayments.
The query is `SELECT count(*) ... WHERE loan_id = ? AND paid = false
ORDER BY week_no DESC LIMIT 2` — gorm drops the ORDER BY for `Count` and the
SQL `LIMIT` caps result rows, not the aggregate, so the count is the total
number of unpaid rows. (Even if the limit did cap the count at 2, the
comparison `count >= 2` would be unchanged.) -/
def isDelinquent (db : DB) (c : Cache) (id : Nat) : Cache × DelResult :=
  match cacheGet c (delKey id) with
  | some v => (c, .ok (parseBool v))
  | none =>
    match findLoan db id with
    | none => (c, .notFound)
    | some l =>
      let count := ((repaymentsOf db l.id).filter (fun r => !r.paid)).length
      let d := decide (2 ≤ count)
      (cacheSet c (delKey id) (formatBool d) 600, .ok d)

/-! ## Generic list helpers -/

theorem filterEqNil {α : Type} {p : α → Bool} :
    ∀ {l : List α}, (∀ x ∈ l, p x = false) → l.filter p = []
  | [], _ => rfl
  | a :: l, h => by
    have ha := h a (List.mem_cons_self a l)
    simp only [List.filter_cons, ha, Bool.false_eq_true, if_false]
    exact filterEqNil (fun x hx => h x (List.mem_cons_of_mem a hx))

theorem filterEqSelf {α : Type} {p : α → Bool} :
    ∀ {l : List α}, (∀ x ∈ l, p x = true) → l.filter p = l
  | [], _ => rfl
  | a :: l, h => by
    have ha := h a (List.mem_cons_self a l)
    simp only [List.filter_cons, ha, if_true]
    rw [filterEqSelf (fun x hx => h x (List.mem_cons_of_mem a hx))]

theorem filterMapSame {α : Type} {g : α → α} {p : α → Bool} :
    ∀ {l : List α}, (∀ x ∈ l, p (g x) = p x) →
      (∀ x ∈ l, p x = true → g x = x) → (l.map g).filter p = l.filter p
  | [], _, _ => rfl
  | a :: l, h1, h2 => by
    have tail := filterMapSame (fun x hx => h1 x (List.mem_cons_of_mem a hx))
      (fun x hx => h2 x (List.mem_cons_of_mem a hx))
    have ha1 := h1 a (List.mem_cons_self a l)
    by_cases hpa : p a = true
    · simp only [List.map_cons, List.filter_cons, ha1, hpa, if_true,
        h2 a (List.mem_cons_self a l) hpa, tail]
    · have hpa' : p a = false := by revert hpa; cases p a <;> simp
      simp only [List.map_cons, List.filter_cons, ha1, hpa', Bool.false_eq_true,
        if_false, tail]

theorem filterMapComm {α : Type} {g : α → α} {p : α → Bool} :
    ∀ {l : List α}, (∀ x ∈ l, p (g x) = p x) →
      (l.map g).filter p = (l.filter p).map g
  | [], _ => rfl
  | a :: l, h1 => by
    have tail := filterMapComm (fun x hx => h1 x (List.mem_cons_of_mem a hx))
    have ha1 := h1 a (List.mem_cons_self a l)
    by_cases hpa : p a = true
    · simp only [List.map_cons, List.filter_cons, ha1, hpa, if_true, tail]
    · have hpa' : p a = false := by revert hpa; cases p a <;> simp
      simp only [List.map_cons, List.filter_cons, ha1, hpa', Bool.false_eq_true,
        if_false, tail]

theorem findEqOfAgree {α : Type} {p q : α → Bool} :
    ∀ {l : List α}, (∀ x ∈ l, p x = q x) → l.find? p = l.find? q
  | [], _ => rfl
  | a :: l, h => by
    have ha := h a (List.mem_cons_self a l)
    have tail := findEqOfAgree (fun x hx => h x (List.mem_cons_of_mem a hx))
    by_cases hpa : p a = true
    · rw [List.find?_cons_of_pos _ hpa, List.find?_cons_of_pos _ (ha ▸ hpa)]
    · have hpa' : p a = false := by revert hpa; cases p a <;> simp
      rw [List.find?_cons_of_neg _ (by simp [hpa']),
        List.find?_cons_of_neg _ (by simp [ha ▸ hpa']), tail]

theorem foldlPickMinFixed {m : Repayment} :
    ∀ {l : List Repayment}, (∀ r ∈ l, ¬ r.weekNo < m.weekNo) →
      l.foldl pickMin (some m) = some m
  | [], _ => rfl
  | a :: l, h => by
    have ha := h a (List.mem_cons_self a l)
    simp only [List.foldl_cons, pickMin, if_neg ha]
    exact foldlPickMinFixed (fun r hr => h r (List.mem_cons_of_mem a hr))

/-- Key-preserving bulk row update, the shape of a gorm `Save` by nonzero
primary key: every row whose key equals the saved row's key is replaced. -/
def updateBy {α : Type} (getId : α → Nat) (rows : List α) (r : α) : List α :=
  rows.map (fun x => if getId x == getId r then r else x)

theorem updateBy_map_getId {α : Type} (getId : α → Nat) (rows : List α)
    (r : α) : (updateBy getId rows r).map getId = rows.map getId := by
  unfold updateBy
  rw [List.map_map]
  apply List.map_congr_left
  intro x _
  by_cases h : getId x == getId r
  · simp only [Function.comp, if_pos h]
    exact (beq_iff_eq.mp h).symm
  · simp only [Function.comp, if_neg h]

theorem updateBy_mem_of_ne {α : Type} {getId : α → Nat} {rows : List α}
    {r x : α} (hx : x ∈ rows) (hne : getId x ≠ getId r) :
    x ∈ updateBy getId rows r := by
  unfold updateBy
  refine List.mem_map.mpr ⟨x, hx, ?_⟩
  rw [if_neg (by simpa using hne)]

theorem updateBy_mem_self {α : Type} {getId : α → Nat} {rows : List α}
    {r x : α} (hx : x ∈ rows) (hid : getId x = getId r) :
    r ∈ updateBy getId rows r := by
  unfold updateBy
  refine List.mem_map.mpr ⟨x, hx, ?_⟩
  rw [if_pos (by simpa using hid)]

theorem find?_updateBy {α : Type} {getId : α → Nat} {rows : List α}
    {r l : α} {n : Nat} (hfind : rows.find? (fun x => getId x == n) = some l)
    (hid : getId r = getId l) (hn : getId l = n) :
    (updateBy getId rows r).find? (fun x => getId x == n) = some r := by
  unfold updateBy
  rw [List.find?_map]
  have hagree : ∀ x ∈ rows,
      ((fun x => getId x == n) ∘ fun x => if getId x == getId r then r else x) x
        = (fun x => getId x == n) x := by
    intro x _
    by_cases h : getId x == getId r
    · have hx := beq_iff_eq.mp h
      simp only [Function.comp, if_pos h]
      rw [hx]
    · simp only [Function.comp, if_neg h]
  rw [findEqOfAgree hagree, hfind]
  show some (if getId l == getId r then r else l) = some r
  rw [if_pos (by simp [beq_iff_eq, hid.symm])]

/-! ## The canonical repayment schedule of a loan

After `k` successful payments the loan's rows are weeks `1..50` with ids
`r0..r0+49`, the first `k` paid and the rest unpaid. -/

def schedule (lid r0 k : Nat) : List Repayment :=
  (List.range k).map (fun i => ⟨r0 + i, lid, i + 1, true⟩) ++
  (List.range (50 - k)).map (fun i => ⟨r0 + (i + k), lid, i + k + 1, false⟩)

theorem schedule_zero (lid r0 : Nat) :
    schedule lid r0 0 =
      (List.range 50).map (fun i => ⟨r0 + i, lid, i + 1, false⟩) := by
  simp [schedule]

theorem schedule_mem_loanID {lid r0 k : Nat} {r : Repayment}
    (h : r ∈ schedule lid r0 k) : r.loanID = lid := by
  rcases List.mem_append.mp h with h' | h' <;>
    · obtain ⟨i, _, rfl⟩ := List.mem_map.mp h'; rfl

theorem schedule_mem_id_lt {lid r0 k : Nat} {r : Repayment} (hk : k ≤ 50)
    (h : r ∈ schedule lid r0 k) : r0 ≤ r.id ∧ r.id < r0 + 50 := by
  rcases List.mem_append.mp h with h' | h' <;>
    · obtain ⟨i, hi, rfl⟩ := List.mem_map.mp h'
      simp only [List.mem_range] at hi
      constructor <;> simp <;> omega

theorem schedule_filter_unpaid (lid r0 k : Nat) :
    (schedule lid r0 k).filter (fun r => !r.paid) =
      (List.range (50 - k)).map (fun i => ⟨r0 + (i + k), lid, i + k + 1, false⟩) := by
  unfold schedule
  rw [List.filter_append]
  have h1 : List.filter (fun r => !r.paid)
      ((List.range k).map (fun i => (⟨r0 + i, lid, i + 1, true⟩ : Repayment))) = [] :=
    filterEqNil (fun x hx => by obtain ⟨i, _, rfl⟩ := List.mem_map.mp hx; rfl)
  have h2 : List.filter (fun r => !r.paid)
      ((List.range (50 - k)).map
        (fun i => (⟨r0 + (i + k), lid, i + k + 1, false⟩ : Repayment))) =
      (List.range (50 - k)).map
        (fun i => (⟨r0 + (i + k), lid, i + k + 1, false⟩ : Repayment)) :=
    filterEqSelf (fun x hx => by obtain ⟨i, _, rfl⟩ := List.mem_map.mp hx; rfl)
  rw [h1, h2, List.nil_append]

theorem schedule_filter_paid (lid r0 k : Nat) :
    (schedule lid r0 k).filter (fun r => r.paid) =
      (List.range k).map (fun i => ⟨r0 + i, lid, i + 1, true⟩) := by
  unfold schedule
  rw [List.filter_append]
  have h1 : List.filter (fun r => r.paid)
      ((List.range k).map (fun i => (⟨r0 + i, lid, i + 1, true⟩ : Repayment))) =
      (List.range k).map (fun i => (⟨r0 + i, lid, i + 1, true⟩ : Repayment)) :=
    filterEqSelf (fun x hx => by obtain ⟨i, _, rfl⟩ := List.mem_map.mp hx; rfl)
  have h2 : List.filter (fun r => r.paid)
      ((List.range (50 - k)).map
        (fun i => (⟨r0 + (i + k), lid, i + k + 1, false⟩ : Repayment))) = [] :=
    filterEqNil (fun x hx => by obtain ⟨i, _, rfl⟩ := List.mem_map.mp hx; rfl)
  rw [h1, h2, List.append_nil]

theorem schedule_unpaid_row_mem {lid r0 k : Nat} (hk : k < 50) :
    (⟨r0 + k, lid, k + 1, false⟩ : Repayment) ∈ schedule lid r0 k := by
  apply List.mem_append.mpr
  right
  apply List.mem_map.mpr
  exact ⟨0, by simp; omega, by simp⟩

theorem minUnpaid_of_schedule {db : DB} {lid r0 k : Nat}
    (hs : repaymentsOf db lid = schedule lid r0 k) (hk : k < 50) :
    minUnpaid db lid = some ⟨r0 + k, lid, k + 1, false⟩ := by
  unfold minUnpaid
  rw [hs, schedule_filter_unpaid]
  obtain ⟨m, hm⟩ : ∃ m, 50 - k = m + 1 := ⟨49 - k, by omega⟩
  rw [hm, List.range_succ_eq_map, List.map_cons, List.map_map, List.foldl_cons]
  show (List.map _ (List.range m)).foldl pickMin
    (some ⟨r0 + (0 + k), lid, 0 + k + 1, false⟩) = _
  simp only [Nat.zero_add]
  apply foldlPickMinFixed
  intro r hr
  obtain ⟨i, _, rfl⟩ := List.mem_map.mp hr
  show ¬ (Nat.succ i + k + 1 < k + 1)
  omega

theorem minUnpaid_of_schedule_full {db : DB} {lid r0 : Nat}
    (hs : repaymentsOf db lid = schedule lid r0 50) :
    minUnpaid db lid = none := by
  unfold minUnpaid
  rw [hs, schedule_filter_unpaid]
  rfl

/-- The schedule as a single map over weeks `0..49`. -/
theorem schedule_eq_map (lid r0 k : Nat) (hk : k ≤ 50) :
    schedule lid r0 k =
      (List.range 50).map (fun i => ⟨r0 + i, lid, i + 1, decide (i < k)⟩) := by
  unfold schedule
  have h50 : 50 = k + (50 - k) := by omega
  conv_rhs => rw [h50]
  rw [List.range_add, List.map_append, List.map_map]
  congr 1
  · apply List.map_congr_left
    intro i hi
    have hik : i < k := List.mem_range.mp hi
    simp only [Repayment.mk.injEq, eq_self_iff_true, true_and, and_true]
    exact (decide_eq_true hik).symm
  · apply List.map_congr_left
    intro i hi
    simp only [Function.comp, Repayment.mk.injEq, eq_self_iff_true, true_and,
      and_true]
    refine ⟨by omega, by omega, ?_⟩
    exact (decide_eq_false (by omega)).symm

/-- Marking the lowest unpaid week of a `k`-paid schedule paid yields the
`(k+1)`-paid schedule. -/
theorem schedule_pay {lid r0 k : Nat} (hk : k < 50) :
    updateBy Repayment.id (schedule lid r0 k) ⟨r0 + k, lid, k + 1, true⟩ =
      schedule lid r0 (k + 1) := by
  rw [schedule_eq_map lid r0 k (by omega), schedule_eq_map lid r0 (k + 1) (by omega)]
  unfold updateBy
  rw [List.map_map]
  apply List.map_congr_left
  intro i hi
  by_cases h : i = k
  · subst h
    simp only [Function.comp]
    rw [if_pos (by simp)]
    simp only [Repayment.mk.injEq, eq_self_iff_true, true_and, and_true]
    exact (decide_eq_true (by omega)).symm
  · simp only [Function.comp]
    rw [if_neg (by simp only [beq_iff_eq]; omega)]
    simp only [Repayment.mk.injEq, eq_self_iff_true, true_and, and_true]
    exact decide_eq_decide.mpr (by omega)

def paidWeeks (db : DB) (lid : Nat) : List Nat :=
  ((repaymentsOf db lid).filter (fun r => r.paid)).map Repayment.weekNo

def unpaidWeeks (db : DB) (lid : Nat) : List Nat :=
  ((repaymentsOf db lid).filter (fun r => !r.paid)).map Repayment.weekNo

theorem paidWeeks_of_schedule {db : DB} {lid r0 k : Nat}
    (hs : repaymentsOf db lid = schedule lid r0 k) :
    paidWeeks db lid = (List.range k).map (· + 1) := by
  unfold paidWeeks
  rw [hs, schedule_filter_paid, List.map_map]
  rfl

theorem unpaidWeeks_of_schedule {db : DB} {lid r0 k : Nat}
    (hs : repaymentsOf db lid = schedule lid r0 k) :
    unpaidWeeks db lid = (List.range (50 - k)).map (· + k + 1) := by
  unfold unpaidWeeks
  rw [hs, schedule_filter_unpaid, List.map_map]
  rfl

/-! ## Reachable-state well-formedness -/

/-- The invariant every committed store state satisfies: primary keys are
positive, unique and below the sequence counters; every repayment row
belongs to an existing loan; and every loan carries the fixed 10% rate, the
derived weekly payment, and a `k`-paid canonical schedule consistent with
its remaining balance. -/
structure WF (db : DB) : Prop where
  nextLoanPos : 1 ≤ db.nextLoanID
  nextRepPos : 1 ≤ db.nextRepID
  loanIdPos : ∀ l ∈ db.loans, 1 ≤ l.id
  loanIdLt : ∀ l ∈ db.loans, l.id < db.nextLoanID
  loanNodup : (db.loans.map Loan.id).Nodup
  repIdPos : ∀ r ∈ db.repayments, 1 ≤ r.id
  repIdLt : ∀ r ∈ db.repayments, r.id < db.nextRepID
  repNodup : (db.repayments.map Repayment.id).Nodup
  repOwner : ∀ r ∈ db.repayments, r.loanID ∈ db.loans.map Loan.id
  loanRate : ∀ l ∈ db.loans, l.interestRate = 1 / 10
  loanWeekly : ∀ l ∈ db.loans, l.weeklyPayment = l.amount * (1 + 1 / 10) / 50
  loanSched : ∀ l ∈ db.loans, ∃ r0 k, k ≤ 50 ∧
      repaymentsOf db l.id = schedule l.id r0 k ∧
      l.remainingBalance = l.amount * (1 + 1 / 10) - l.weeklyPayment * k

theorem wf_empty : WF emptyDB := by
  constructor <;> simp [emptyDB]

theorem mem_updateBy {α : Type} {getId : α → Nat} {rows : List α} {r x : α}
    (hx : x ∈ updateBy getId rows r) :
    x = r ∨ (x ∈ rows ∧ getId x ≠ getId r) := by
  obtain ⟨y, hy, hgy⟩ := List.mem_map.mp hx
  by_cases h : getId y == getId r
  · rw [if_pos h] at hgy
    exact Or.inl hgy.symm
  · rw [if_neg h] at hgy
    subst hgy
    exact Or.inr ⟨hy, by simpa using h⟩

/-! ## Characterizing `createLoan` -/

theorem createLoan_loan (db : DB) (b : Nat) (amt : ℚ) :
    (createLoan db b amt).2 =
      { id := db.nextLoanID, borrowerID := b, amount := amt,
        interestRate := 1 / 10, weeklyPayment := amt * (1 + 1 / 10) / 50,
        remainingBalance := amt * (1 + 1 / 10) } := rfl

theorem createLoan_db (db : DB) (b : Nat) (amt : ℚ) :
    (createLoan db b amt).1 =
      ⟨db.loans ++ [(createLoan db b amt).2],
       db.repayments ++ schedule db.nextLoanID db.nextRepID 0,
       db.nextLoanID + 1, db.nextRepID + 50⟩ := by
  unfold createLoan schedule
  simp

theorem schedule_map_id (lid r0 k : Nat) (hk : k ≤ 50) :
    (schedule lid r0 k).map Repayment.id = (List.range 50).map (r0 + ·) := by
  rw [schedule_eq_map lid r0 k hk, List.map_map]
  apply List.map_congr_left
  intro i _
  rfl

theorem wf_createLoan {db : DB} (hw : WF db) (b : Nat) (amt : ℚ) :
    WF (createLoan db b amt).1 := by
  have hloan := createLoan_loan db b amt
  rw [createLoan_db]
  set l := (createLoan db b amt).2 with hldef
  have hlid : l.id = db.nextLoanID := by rw [hloan]
  have hnewOwn : ∀ r ∈ schedule db.nextLoanID db.nextRepID 0,
      r.loanID = db.nextLoanID := fun r hr => schedule_mem_loanID hr
  have hnewIds : ∀ r ∈ schedule db.nextLoanID db.nextRepID 0,
      db.nextRepID ≤ r.id ∧ r.id < db.nextRepID + 50 :=
    fun r hr => schedule_mem_id_lt (by omega) hr
  have holdOwnLt : ∀ r ∈ db.repayments, r.loanID < db.nextLoanID := by
    intro r hr
    obtain ⟨l', hl', he⟩ := List.mem_map.mp (hw.repOwner r hr)
    exact he ▸ hw.loanIdLt l' hl'
  constructor
  · show 1 ≤ db.nextLoanID + 1
    omega
  · show 1 ≤ db.nextRepID + 50
    omega
  · intro x hx
    rcases List.mem_append.mp hx with h | h
    · exact hw.loanIdPos x h
    · rw [List.mem_singleton.mp h, hlid]
      exact hw.nextLoanPos
  · intro x hx
    show x.id < db.nextLoanID + 1
    rcases List.mem_append.mp hx with h | h
    · have := hw.loanIdLt x h
      omega
    · rw [List.mem_singleton.mp h, hlid]
      omega
  · show ((db.loans ++ [l]).map Loan.id).Nodup
    rw [List.map_append]
    refine List.Nodup.append hw.loanNodup (by simp) ?_
    intro a ha hb
    obtain ⟨l', hl', he⟩ := List.mem_map.mp ha
    have h1 : a < db.nextLoanID := he ▸ hw.loanIdLt l' hl'
    have h2 : a = db.nextLoanID := by
      simpa [hlid] using hb
    omega
  · intro x hx
    rcases List.mem_append.mp hx with h | h
    · exact hw.repIdPos x h
    · have := (hnewIds x h).1
      have := hw.nextRepPos
      omega
  · intro x hx
    show x.id < db.nextRepID + 50
    rcases List.mem_append.mp hx with h | h
    · have := hw.repIdLt x h
      omega
    · exact (hnewIds x h).2
  · show ((db.repayments ++ schedule db.nextLoanID db.nextRepID 0).map
      Repayment.id).Nodup
    rw [List.map_append, schedule_map_id _ _ _ (by omega)]
    refine List.Nodup.append hw.repNodup ?_ ?_
    · exact List.Nodup.map (fun a b h => by omega) (List.nodup_range 50)
    · intro a ha hb
      obtain ⟨r', hr', he⟩ := List.mem_map.mp ha
      have h1 : a < db.nextRepID := he ▸ hw.repIdLt r' hr'
      obtain ⟨i, _, he2⟩ := List.mem_map.mp hb
      omega
  · intro r hr
    rw [List.map_append]
    rcases List.mem_append.mp hr with h | h
    · exact List.mem_append_left _ (hw.repOwner r h)
    · refine List.mem_append_right _ ?_
      rw [hnewOwn r h, ← hlid]
      simp
  · intro x hx
    rcases List.mem_append.mp hx with h | h
    · exact hw.loanRate x h
    · rw [List.mem_singleton.mp h, hloan]
  · intro x hx
    rcases List.mem_append.mp hx with h | h
    · exact hw.loanWeekly x h
    · rw [List.mem_singleton.mp h, hloan]
  · intro x hx
    rcases List.mem_append.mp hx with h | h
    · obtain ⟨r0, k, hk, hs, hb⟩ := hw.loanSched x h
      refine ⟨r0, k, hk, ?_, hb⟩
      show ((db.repayments ++ schedule db.nextLoanID db.nextRepID 0).filter
        (fun r => r.loanID == x.id)) = _
      rw [List.filter_append]
      have hnil : (schedule db.nextLoanID db.nextRepID 0).filter
          (fun r => r.loanID == x.id) = [] :=
        filterEqNil (fun r hr => by
          have h1 := hnewOwn r hr
          have h2 := hw.loanIdLt x h
          simp only [beq_eq_false_iff_ne, ne_eq]
          omega)
      rw [hnil, List.append_nil]
      exact hs
    · rw [List.mem_singleton.mp h]
      refine ⟨db.nextRepID, 0, by omega, ?_, ?_⟩
      · show ((db.repayments ++ schedule db.nextLoanID db.nextRepID 0).filter
          (fun r => r.loanID == l.id)) = _
        rw [List.filter_append]
        have hnil : db.repayments.filter (fun r => r.loanID == l.id) = [] :=
          filterEqNil (fun r hr => by
            have h1 := holdOwnLt r hr
            simp only [beq_eq_false_iff_ne, ne_eq, hlid]
            omega)
        have hself : (schedule db.nextLoanID db.nextRepID 0).filter
            (fun r => r.loanID == l.id) = schedule db.nextLoanID db.nextRepID 0 :=
          filterEqSelf (fun r hr => by
            have h1 := hnewOwn r hr
            simp only [beq_iff_eq, hlid, h1])
        rw [hnil, hself, List.nil_append, hlid]
      · rw [hloan]
        push_cast
        ring


theorem makePayment_noFail_eq {db : DB} {id : Nat} {l : Loan} {r0 k : Nat} (c : Cache)
    (hw : WF db) (hl : findLoan db id = some l)
    (hs : repaymentsOf db l.id = schedule l.id r0 k) (hk : k < 50) :
    makePayment db c id noFail =
      (⟨updateBy Loan.id db.loans
          { l with remainingBalance := l.remainingBalance - l.weeklyPayment },
        updateBy Repayment.id db.repayments ⟨r0 + k, l.id, k + 1, true⟩,
        db.nextLoanID, db.nextRepID⟩,
       cacheDel (cacheSet c (outKey id)
          (fmtF (l.remainingBalance - l.weeklyPayment)) 600) (delKey id),
       PayResult.success (l.remainingBalance - l.weeklyPayment)) := by
  have hrow : (⟨r0 + k, l.id, k + 1, false⟩ : Repayment) ∈ repaymentsOf db l.id := by
    rw [hs]; exact schedule_unpaid_row_mem hk
  have hrmem : (⟨r0 + k, l.id, k + 1, false⟩ : Repayment) ∈ db.repayments :=
    List.mem_of_mem_filter hrow
  have hrpos : 1 ≤ r0 + k := hw.repIdPos _ hrmem
  have hlmem : l ∈ db.loans := List.mem_of_find?_eq_some hl
  have hlpos : 1 ≤ l.id := hw.loanIdPos l hlmem
  unfold makePayment
  rw [hl]
  simp only [Option.getD_some]
  rw [minUnpaid_of_schedule hs hk]
  simp only [noFail, if_false, Bool.false_eq_true]
  unfold saveRepayment saveLoan
  have e1 : (((⟨r0 + k, l.id, k + 1, true⟩ : Repayment)).id == 0) = false := by
    simp only [beq_eq_false_iff_ne, ne_eq]; omega
  have e2 : ((l.id : Nat) == 0) = false := by
    simp only [beq_eq_false_iff_ne, ne_eq]; omega
  simp only [e1, e2, Bool.false_eq_true, if_false]
  unfold updateBy
  rfl



theorem repaymentsOf_zero {db : DB} (hw : WF db) : repaymentsOf db 0 = [] :=
  filterEqNil (fun r hr => by
    obtain ⟨l', hl', he⟩ := List.mem_map.mp (hw.repOwner r hr)
    have := hw.loanIdPos l' hl'
    simp only [beq_eq_false_iff_ne, ne_eq]
    omega)

theorem minUnpaid_zero {db : DB} (hw : WF db) : minUnpaid db 0 = none := by
  unfold minUnpaid
  rw [repaymentsOf_zero hw]
  rfl

/-- Full case analysis of one `makePayment` call on a well-formed store:
either the committed store is unchanged and the call did not succeed, or the
call consumed exactly the lowest unpaid week of the addressed loan. -/
theorem makePayment_master (db : DB) (c : Cache) (id : Nat) (f : Fail)
    (hw : WF db) :
    ((makePayment db c id f).1 = db ∧
      ∀ q, (makePayment db c id f).2.2 ≠ PayResult.success q) ∨
    ∃ l r0 k, findLoan db id = some l ∧
      repaymentsOf db l.id = schedule l.id r0 k ∧ k < 50 ∧ f = noFail ∧
      l.remainingBalance = l.amount * (1 + 1 / 10) - l.weeklyPayment * k ∧
      makePayment db c id f =
        (⟨updateBy Loan.id db.loans
            { l with remainingBalance := l.remainingBalance - l.weeklyPayment },
          updateBy Repayment.id db.repayments ⟨r0 + k, l.id, k + 1, true⟩,
          db.nextLoanID, db.nextRepID⟩,
         cacheDel (cacheSet c (outKey id)
            (fmtF (l.remainingBalance - l.weeklyPayment)) 600) (delKey id),
         PayResult.success (l.remainingBalance - l.weeklyPayment)) := by
  cases hfind : findLoan db id with
  | none =>
    left
    have hthis : makePayment db c id f = (db, c, .noPendingRepayment) := by
      unfold makePayment
      rw [hfind]
      simp only [Option.getD_none]
      rw [show (zeroLoan.id : Nat) = 0 from rfl, minUnpaid_zero hw]
    rw [hthis]
    exact ⟨rfl, fun q h => PayResult.noConfusion h⟩
  | some l =>
    obtain ⟨r0, k, hk50, hs, hb⟩ :=
      hw.loanSched l (List.mem_of_find?_eq_some hfind)
    by_cases hk : k < 50
    · obtain ⟨f1, f2, f3⟩ := f
      have hmu := minUnpaid_of_schedule hs hk
      cases f1
      · cases f2
        · cases f3
          · right
            exact ⟨l, r0, k, rfl, hs, hk, rfl, hb,
              makePayment_noFail_eq c hw hfind hs hk⟩
          · left
            have hthis : makePayment db c id ⟨false, false, true⟩ =
                (db, cacheDel (cacheSet c (outKey id)
                  (fmtF (l.remainingBalance - l.weeklyPayment)) 600) (delKey id),
                 .transactionFailed) := by
              unfold makePayment
              rw [hfind]
              simp only [Option.getD_some]
              rw [hmu]
              simp
            rw [hthis]
            exact ⟨rfl, fun q h => PayResult.noConfusion h⟩
        · left
          have hthis : makePayment db c id ⟨false, true, f3⟩ =
              (db, c, .transactionFailed) := by
            unfold makePayment
            rw [hfind]
            simp only [Option.getD_some]
            rw [hmu]
            simp
          rw [hthis]
          exact ⟨rfl, fun q h => PayResult.noConfusion h⟩
      · left
        have hthis : makePayment db c id ⟨true, f2, f3⟩ =
            (db, c, .transactionFailed) := by
          unfold makePayment
          rw [hfind]
          simp only [Option.getD_some]
          rw [hmu]
          simp
        rw [hthis]
        exact ⟨rfl, fun q h => PayResult.noConfusion h⟩
    · left
      have hk50' : k = 50 := by omega
      subst hk50'
      have hmu : minUnpaid db l.id = none := minUnpaid_of_schedule_full hs
      have hthis : makePayment db c id f = (db, c, .noPendingRepayment) := by
        unfold makePayment
        rw [hfind]
        simp only [Option.getD_some]
        rw [hmu]
      rw [hthis]
      exact ⟨rfl, fun q h => PayResult.noConfusion h⟩



theorem wf_makePayment {db : DB} {c : Cache} {id : Nat} {f : Fail}
    (hw : WF db) : WF (makePayment db c id f).1 := by
  rcases makePayment_master db c id f hw with ⟨h, _⟩ |
    ⟨l, r0, k, hl, hs, hk, hf, hb, heq⟩
  · rw [h]; exact hw
  · rw [heq]
    have hlmem : l ∈ db.loans := List.mem_of_find?_eq_some hl
    have hrow : (⟨r0 + k, l.id, k + 1, false⟩ : Repayment) ∈ repaymentsOf db l.id := by
      rw [hs]; exact schedule_unpaid_row_mem hk
    have hrmem : (⟨r0 + k, l.id, k + 1, false⟩ : Repayment) ∈ db.repayments :=
      List.mem_of_mem_filter hrow
    have hinjR := List.inj_on_of_nodup_map hw.repNodup
    -- the two saved rows
    have hgrep : ∀ x ∈ db.repayments,
        ((if x.id == r0 + k then (⟨r0 + k, l.id, k + 1, true⟩ : Repayment) else x).loanID
          == l.id) = (x.loanID == l.id) := by
      intro x hx
      by_cases hid : x.id == r0 + k
      · have hx_eq : x = ⟨r0 + k, l.id, k + 1, false⟩ :=
          hinjR hx hrmem (by simpa using hid)
        rw [if_pos hid, hx_eq]
      · rw [if_neg hid]
    constructor
    · exact hw.nextLoanPos
    · exact hw.nextRepPos
    · intro x hx
      rcases mem_updateBy hx with rfl | ⟨hxm, _⟩
      · exact hw.loanIdPos l hlmem
      · exact hw.loanIdPos x hxm
    · intro x hx
      rcases mem_updateBy hx with rfl | ⟨hxm, _⟩
      · exact hw.loanIdLt l hlmem
      · exact hw.loanIdLt x hxm
    · show ((updateBy Loan.id db.loans _).map Loan.id).Nodup
      rw [updateBy_map_getId]
      exact hw.loanNodup
    · intro x hx
      rcases mem_updateBy hx with rfl | ⟨hxm, _⟩
      · show 1 ≤ r0 + k
        exact hw.repIdPos _ hrmem
      · exact hw.repIdPos x hxm
    · intro x hx
      rcases mem_updateBy hx with rfl | ⟨hxm, _⟩
      · show r0 + k < db.nextRepID
        exact hw.repIdLt _ hrmem
      · exact hw.repIdLt x hxm
    · show ((updateBy Repayment.id db.repayments _).map Repayment.id).Nodup
      rw [updateBy_map_getId]
      exact hw.repNodup
    · intro r hr
      show r.loanID ∈ (updateBy Loan.id db.loans _).map Loan.id
      rw [updateBy_map_getId]
      rcases mem_updateBy hr with rfl | ⟨hrm, _⟩
      · show l.id ∈ db.loans.map Loan.id
        exact hw.repOwner _ hrmem
      · exact hw.repOwner r hrm
    · intro x hx
      rcases mem_updateBy hx with rfl | ⟨hxm, _⟩
      · exact hw.loanRate l hlmem
      · exact hw.loanRate x hxm
    · intro x hx
      rcases mem_updateBy hx with rfl | ⟨hxm, _⟩
      · exact hw.loanWeekly l hlmem
      · exact hw.loanWeekly x hxm
    · intro x hx
      rcases mem_updateBy hx with rfl | ⟨hxm, hxid⟩
      · -- the paid loan, now k+1 weeks paid
        refine ⟨r0, k + 1, by omega, ?_, ?_⟩
        · show ((updateBy Repayment.id db.repayments
            (⟨r0 + k, l.id, k + 1, true⟩ : Repayment)).filter
              (fun r => r.loanID == l.id)) = schedule l.id r0 (k + 1)
          unfold updateBy
          rw [filterMapComm hgrep]
          show (repaymentsOf db l.id).map _ = _
          rw [hs]
          exact schedule_pay hk
        · show l.remainingBalance - l.weeklyPayment =
            l.amount * (1 + 1 / 10) - l.weeklyPayment * ((k + 1 : Nat) : ℚ)
          rw [hb]
          push_cast
          ring
      · -- any other loan: rows untouched
        obtain ⟨r0x, kx, hkx, hsx, hbx⟩ := hw.loanSched x hxm
        refine ⟨r0x, kx, hkx, ?_, hbx⟩
        have hxid' : x.id ≠ l.id := hxid
        show ((updateBy Repayment.id db.repayments
          (⟨r0 + k, l.id, k + 1, true⟩ : Repayment)).filter
            (fun r => r.loanID == x.id)) = schedule x.id r0x kx
        unfold updateBy
        rw [filterMapSame ?h1 ?h2]
        · exact hsx
        case h1 =>
          intro y hy
          by_cases hid : y.id == r0 + k
          · have hy_eq : y = ⟨r0 + k, l.id, k + 1, false⟩ :=
              hinjR hy hrmem (by simpa using hid)
            rw [if_pos hid, hy_eq]
          · rw [if_neg hid]
        case h2 =>
          intro y hy hpy
          have hyl : y.loanID = x.id := by simpa using hpy
          by_cases hid : y.id == r0 + k
          · have hy_eq : y = ⟨r0 + k, l.id, k + 1, false⟩ :=
              hinjR hy hrmem (by simpa using hid)
            exfalso
            apply hxid'
            rw [← hyl, hy_eq]
          · rw [if_neg hid]


/-! ## Reachable committed states -/

/-- The committed store states reachable through the API: the empty store,
a loan origination, or any payment attempt (with any failure outcome). -/
inductive Reach : DB → Prop where
  | empty : Reach emptyDB
  | create (db : DB) (b : Nat) (amt : ℚ) : Reach db → Reach (createLoan db b amt).1
  | pay (db : DB) (c : Cache) (id : Nat) (f : Fail) :
      Reach db → Reach (makePayment db c id f).1

theorem reach_wf {db : DB} (h : Reach db) : WF db := by
  induction h with
  | empty => exact wf_empty
  | create db b amt _ ih => exact wf_createLoan ih b amt
  | pay db c id f _ ih => exact wf_makePayment ih

/-! ## Further helpers for the claim theorems -/

theorem cacheGet_cacheDel_self (c : Cache) (k : String) :
    cacheGet (cacheDel c k) k = none := by
  unfold cacheGet cacheDel
  rw [List.find?_eq_none.mpr]
  · rfl
  · intro e he
    have h2 := (List.mem_filter.mp he).2
    simpa [bne] using h2

theorem createLoanUpTo_full (db : DB) (b : Nat) (amt : ℚ) :
    createLoanUpTo db b amt 50 = (createLoan db b amt).1 := by
  unfold createLoanUpTo createLoan
  simp

/-- Descending insertion, for the spec-side reading of
`ORDER BY week_no desc LIMIT 2`. -/
def insertDesc (w : Nat) : List Nat → List Nat
  | [] => [w]
  | x :: xs => if x ≤ w then w :: x :: xs else x :: insertDesc w xs

/-- Descending insertion sort. -/
def sortDesc : List Nat → List Nat
  | [] => []
  | x :: xs => insertDesc x (sortDesc xs)

theorem length_insertDesc (w : Nat) :
    ∀ l : List Nat, (insertDesc w l).length = l.length + 1
  | [] => rfl
  | x :: xs => by
    unfold insertDesc
    by_cases h : x ≤ w
    · rw [if_pos h]
      rfl
    · rw [if_neg h]
      simp [length_insertDesc w xs]

theorem length_sortDesc : ∀ l : List Nat, (sortDesc l).length = l.length
  | [] => rfl
  | x :: xs => by
    unfold sortDesc
    rw [length_insertDesc, length_sortDesc xs]
    rfl

/-- Spec-side definition, following the claim's words: the loan's unpaid
week numbers, restricted to the two highest ones (sort the unpaid weeks in
descending order and keep the first two). -/
def twoHighestUnpaid (db : DB) (lid : Nat) : List Nat :=
  (sortDesc (unpaidWeeks db lid)).take 2

/-- The paid loan's rows after the in-transaction repayment save. -/
theorem repaymentsOf_update_paid {db : DB} (hw : WF db) {l : Loan} {r0 k : Nat}
    (hs : repaymentsOf db l.id = schedule l.id r0 k) (hk : k < 50) :
    (updateBy Repayment.id db.repayments
      (⟨r0 + k, l.id, k + 1, true⟩ : Repayment)).filter
        (fun r => r.loanID == l.id) = schedule l.id r0 (k + 1) := by
  have hrow : (⟨r0 + k, l.id, k + 1, false⟩ : Repayment) ∈ repaymentsOf db l.id := by
    rw [hs]; exact schedule_unpaid_row_mem hk
  have hrmem : (⟨r0 + k, l.id, k + 1, false⟩ : Repayment) ∈ db.repayments :=
    List.mem_of_mem_filter hrow
  have hinjR := List.inj_on_of_nodup_map hw.repNodup
  unfold updateBy
  rw [filterMapComm (fun x hx => by
    by_cases hid : x.id == r0 + k
    · have hx_eq : x = ⟨r0 + k, l.id, k + 1, false⟩ :=
        hinjR hx hrmem (by simpa using hid)
      rw [if_pos hid, hx_eq]
    · rw [if_neg hid])]
  show (repaymentsOf db l.id).map _ = _
  rw [hs]
  exact schedule_pay hk

/-- Any other loan's rows are untouched by the repayment save. -/
theorem repaymentsOf_update_other {db : DB} (hw : WF db) {l : Loan}
    {r0 k : Nat} {lid : Nat}
    (hs : repaymentsOf db l.id = schedule l.id r0 k) (hk : k < 50)
    (hne : lid ≠ l.id) :
    (updateBy Repayment.id db.repayments
      (⟨r0 + k, l.id, k + 1, true⟩ : Repayment)).filter
        (fun r => r.loanID == lid) = repaymentsOf db lid := by
  have hrow : (⟨r0 + k, l.id, k + 1, false⟩ : Repayment) ∈ repaymentsOf db l.id := by
    rw [hs]; exact schedule_unpaid_row_mem hk
  have hrmem : (⟨r0 + k, l.id, k + 1, false⟩ : Repayment) ∈ db.repayments :=
    List.mem_of_mem_filter hrow
  have hinjR := List.inj_on_of_nodup_map hw.repNodup
  unfold updateBy
  rw [filterMapSame ?hone ?htwo]
  rfl
  case hone =>
    intro y hy
    by_cases hid : y.id == r0 + k
    · have hy_eq : y = ⟨r0 + k, l.id, k + 1, false⟩ :=
        hinjR hy hrmem (by simpa using hid)
      rw [if_pos hid, hy_eq]
    · rw [if_neg hid]
  case htwo =>
    intro y hy hpy
    have hyl : y.loanID = lid := by simpa using hpy
    by_cases hid : y.id == r0 + k
    · have hy_eq : y = ⟨r0 + k, l.id, k + 1, false⟩ :=
        hinjR hy hrmem (by simpa using hid)
      exfalso
      apply hne
      rw [← hyl, hy_eq]
    · rw [if_neg hid]

/-- The new loan row is found after any prefix of the origination writes. -/
theorem findLoan_createLoanUpTo {db : DB} (hw : WF db) (b : Nat) (amt : ℚ)
    (k : Nat) :
    findLoan (createLoanUpTo db b amt k) (createLoan db b amt).2.id =
      some (createLoan db b amt).2 := by
  have hlid : (createLoan db b amt).2.id = db.nextLoanID := by
    rw [createLoan_loan]
  show (db.loans ++ [(createLoan db b amt).2]).find?
    (fun x => x.id == (createLoan db b amt).2.id) = _
  rw [List.find?_append, List.find?_eq_none.mpr (fun x hx => by
    have := hw.loanIdLt x hx
    simp only [beq_iff_eq, hlid]
    omega)]
  simp

/-- The new loan's rows after any prefix of the origination writes. -/
theorem repaymentsOf_createLoanUpTo {db : DB} (hw : WF db) (b : Nat) (amt : ℚ)
    (k : Nat) :
    repaymentsOf (createLoanUpTo db b amt k) (createLoan db b amt).2.id =
      (List.range (min k 50)).map (fun i =>
        { id := db.nextRepID + i, loanID := (createLoan db b amt).2.id,
          weekNo := i + 1, paid := false }) := by
  have hlid : (createLoan db b amt).2.id = db.nextLoanID := by
    rw [createLoan_loan]
  show ((db.repayments ++ (List.range (min k 50)).map (fun i =>
      ({ id := db.nextRepID + i, loanID := (createLoan db b amt).2.id,
         weekNo := i + 1, paid := false } : Repayment))).filter
      (fun r => r.loanID == (createLoan db b amt).2.id)) = _
  rw [List.filter_append]
  have hnil : db.repayments.filter
      (fun r => r.loanID == (createLoan db b amt).2.id) = [] :=
    filterEqNil (fun r hr => by
      obtain ⟨l', hl', he⟩ := List.mem_map.mp (hw.repOwner r hr)
      have := hw.loanIdLt l' hl'
      simp only [beq_eq_false_iff_ne, ne_eq, hlid]
      omega)
  have hself : ((List.range (min k 50)).map (fun i =>
      ({ id := db.nextRepID + i, loanID := (createLoan db b amt).2.id,
         weekNo := i + 1, paid := false } : Repayment))).filter
      (fun r => r.loanID == (createLoan db b amt).2.id) =
      (List.range (min k 50)).map (fun i =>
      ({ id := db.nextRepID + i, loanID := (createLoan db b amt).2.id,
         weekNo := i + 1, paid := false } : Repayment)) :=
    filterEqSelf (fun r hr => by
      obtain ⟨i, _, rfl⟩ := List.mem_map.mp hr
      simp)
  rw [hnil, hself, List.nil_append]

/-- `n` successive payment attempts on one loan. -/
def payN (db : DB) (id : Nat) : Nat → DB
  | 0 => db
  | n + 1 => (makePayment (payN db id n) emptyCache id noFail).1

theorem reach_payN {db : DB} (h : Reach db) (id : Nat) :
    ∀ n, Reach (payN db id n)
  | 0 => h
  | n + 1 => Reach.pay _ emptyCache id noFail (reach_payN h id n)

/-- The single loan of a store originated from empty with principal `P`,
after `n` payments. -/
def loanAfter (b : Nat) (P : ℚ) (n : Nat) : Loan :=
  { id := 1, borrowerID := b, amount := P, interestRate := 1 / 10,
    weeklyPayment := P * (1 + 1 / 10) / 50,
    remainingBalance := P * (1 + 1 / 10) - P * (1 + 1 / 10) / 50 * n }

theorem findLoan_payState (b : Nat) (P : ℚ) (n : Nat) :
    findLoan (⟨[loanAfter b P n], schedule 1 1 n, 2, 51⟩ : DB) 1 =
      some (loanAfter b P n) := rfl

theorem repaymentsOf_payState (b : Nat) (P : ℚ) (n : Nat) :
    repaymentsOf (⟨[loanAfter b P n], schedule 1 1 n, 2, 51⟩ : DB) 1 =
      schedule 1 1 n :=
  filterEqSelf (fun r hr => by
    have := schedule_mem_loanID hr
    simp [this])

/-- Closed form of the store after `n ≤ 50` payments on a fresh loan. -/
theorem payN_eq (b : Nat) (P : ℚ) :
    ∀ n, n ≤ 50 →
      payN (createLoan emptyDB b P).1 1 n =
        ⟨[loanAfter b P n], schedule 1 1 n, 2, 51⟩ := by
  intro n
  induction n with
  | zero =>
    intro _
    show (createLoan emptyDB b P).1 = _
    rw [createLoan_db, createLoan_loan]
    have hbal : P * (1 + 1 / 10) =
        P * (1 + 1 / 10) - P * (1 + 1 / 10) / 50 * ((0 : Nat) : ℚ) := by
      push_cast
      ring
    have hl0 : loanAfter b P 0 =
        { id := 1, borrowerID := b, amount := P, interestRate := 1 / 10,
          weeklyPayment := P * (1 + 1 / 10) / 50,
          remainingBalance := P * (1 + 1 / 10) } := by
      unfold loanAfter
      rw [← hbal]
    rw [hl0]
    rfl
  | succ n ih =>
    intro hn
    have hSn := ih (by omega)
    show (makePayment (payN (createLoan emptyDB b P).1 1 n)
      emptyCache 1 noFail).1 = _
    have hreach : Reach (payN (createLoan emptyDB b P).1 1 n) :=
      reach_payN (Reach.create emptyDB b P Reach.empty) 1 n
    have hw := reach_wf hreach
    rw [hSn] at hw
    rw [hSn]
    have hk : n < 50 := by omega
    rw [makePayment_noFail_eq emptyCache hw (findLoan_payState b P n)
      (repaymentsOf_payState b P n) hk]
    have hrep : updateBy Repayment.id (schedule 1 1 n)
        (⟨1 + n, (loanAfter b P n).id, n + 1, true⟩ : Repayment) =
        schedule 1 1 (n + 1) := schedule_pay hk
    have hb2 : (loanAfter b P n).remainingBalance -
        (loanAfter b P n).weeklyPayment =
        P * (1 + 1 / 10) - P * (1 + 1 / 10) / 50 * ((n + 1 : Nat) : ℚ) := by
      show P * (1 + 1 / 10) - P * (1 + 1 / 10) / 50 * (n : ℚ) -
        P * (1 + 1 / 10) / 50 = _
      push_cast
      ring
    have hstep : { loanAfter b P n with remainingBalance :=
        (loanAfter b P n).remainingBalance - (loanAfter b P n).weeklyPayment } =
        loanAfter b P (n + 1) := by
      rw [hb2]
      rfl
    have hloan : updateBy Loan.id [loanAfter b P n]
        { loanAfter b P n with remainingBalance :=
            (loanAfter b P n).remainingBalance -
              (loanAfter b P n).weeklyPayment } =
        [loanAfter b P (n + 1)] := by
      unfold updateBy
      simp only [List.map_cons, List.map_nil]
      rw [if_pos (by rfl), hstep]
    simp only [DB.mk.injEq]
    refine ⟨hloan, hrep, ?_, ?_⟩ <;> trivial

/-- C6: from a fresh loan, each of the first 50 `makePayment` calls succeeds
and returns the balance P*1.10 − (P*1.10/50)*(n+1); after the 50th payment
the remaining balance is exactly 0 (the rational model incurs no rounding)
and no unpaid week remains; a 51st call answers `NoPendingRepayment` and
changes neither store nor cache. -/
theorem spec_c6 (b : Nat) (P : ℚ) (c : Cache) :
    (∀ n, n < 50 →
      (makePayment (payN (createLoan emptyDB b P).1 1 n) c 1 noFail).2.2 =
        PayResult.success
          (P * (1 + 1 / 10) - P * (1 + 1 / 10) / 50 * ((n : ℚ) + 1))) ∧
    (findLoan (payN (createLoan emptyDB b P).1 1 50) 1).map
      Loan.remainingBalance = some 0 ∧
    unpaidWeeks (payN (createLoan emptyDB b P).1 1 50) 1 = [] ∧
    makePayment (payN (createLoan emptyDB b P).1 1 50) c 1 noFail =
      (payN (createLoan emptyDB b P).1 1 50, c, PayResult.noPendingRepayment) := by
  refine ⟨?_, ?_, ?_, ?_⟩
  · intro n hn
    have hreach : Reach (payN (createLoan emptyDB b P).1 1 n) :=
      reach_payN (Reach.create emptyDB b P Reach.empty) 1 n
    have hw := reach_wf hreach
    have hEq := payN_eq b P n (by omega)
    rw [hEq] at hw
    rw [hEq, makePayment_noFail_eq c hw (findLoan_payState b P n)
      (repaymentsOf_payState b P n) hn]
    show PayResult.success _ = _
    congr 1
    show P * (1 + 1 / 10) - P * (1 + 1 / 10) / 50 * (n : ℚ) -
      P * (1 + 1 / 10) / 50 = _
    ring
  · rw [payN_eq b P 50 (by omega), findLoan_payState]
    show some ((loanAfter b P 50).remainingBalance) = some 0
    have : (loanAfter b P 50).remainingBalance = 0 := by
      show P * (1 + 1 / 10) - P * (1 + 1 / 10) / 50 * ((50 : Nat) : ℚ) = 0
      push_cast
      ring
    rw [this]
  · rw [payN_eq b P 50 (by omega),
      unpaidWeeks_of_schedule (repaymentsOf_payState b P 50)]
    rfl
  · rw [payN_eq b P 50 (by omega)]
    unfold makePayment
    rw [findLoan_payState]
    simp only [Option.getD_some]
    have hid : (loanAfter b P 50).id = 1 := rfl
    rw [hid, minUnpaid_of_schedule_full (repaymentsOf_payState b P 50)]

theorem spec_c6_witness :
    (makePayment (payN (createLoan emptyDB 1 1000).1 1 0) emptyCache 1
      noFail).2.2 =
      PayResult.success
        (1000 * (1 + 1 / 10) - 1000 * (1 + 1 / 10) / 50 * (((0 : Nat) : ℚ) + 1)) :=
  (spec_c6 1 1000 emptyCache).1 0 (by omega)

/-! ## Claim theorems -/

/-- C3: the claim says every nonexistent loanID makes `applyPayment` abort
with `NotFound`. In the code, gorm's `Raw(...).Scan` reports no error when
the `SELECT ... FOR UPDATE` returns zero rows — it just leaves the zero
`Loan` value — so the `NotFound` branch never fires for a missing loan; the
subsequent repayment lookup (for loan id 0) fails instead and the call
answers `NoPendingRepayment` (HTTP 400). Evaluated at the failing input — a
store holding only loan 1, payment attempted on loan 2: no mutation happens
(as the claim states), but the error is `NoPendingRepayment`, not
`NotFound`. -/
theorem spec_c3 :
    findLoan (createLoan emptyDB 7 1000).1 2 = none ∧
    makePayment (createLoan emptyDB 7 1000).1 emptyCache 2 noFail =
      ((createLoan emptyDB 7 1000).1, emptyCache, PayResult.noPendingRepayment) ∧
    PayResult.noPendingRepayment ≠ PayResult.notFound :=
  ⟨rfl, rfl, fun h => PayResult.noConfusion h⟩

/-- C8 counterexample: the non-positive principal −100 binds successfully
(the `Loan` struct has no validation tags), so `createLoan` does NOT signal
`InvalidInput`: it writes the loan row and all 50 repayment rows. -/
theorem spec_c8_counterexample :
    (createLoanHandler emptyDB true 1 (-100)).2 ≠ CreateResult.invalidInput ∧
    (createLoanHandler emptyDB true 1 (-100)).1.loans.length = 1 ∧
    (createLoanHandler emptyDB true 1 (-100)).1.repayments.length = 50 :=
  ⟨fun h => CreateResult.noConfusion h, rfl, rfl⟩

/-- C8 amended: `InvalidInput` (with no store writes) is signalled exactly
when the request body fails to bind; any bound request — in particular any
non-positive principal — is accepted, and the loan row plus its 50 schedule
rows are written. -/
theorem spec_c8 (db : DB) (b : Nat) (amt : ℚ) :
    createLoanHandler db false b amt = (db, CreateResult.invalidInput) ∧
    (createLoanHandler db true b amt).2 =
      CreateResult.ok (createLoan db b amt).2 ∧
    (createLoanHandler db true b amt).1.loans =
      db.loans ++ [(createLoan db b amt).2] ∧
    (createLoanHandler db true b amt).1.repayments.length =
      db.repayments.length + 50 := by
  refine ⟨rfl, rfl, rfl, ?_⟩
  show (db.repayments ++ _).length = _
  rw [List.length_append, List.length_map, List.length_range]

/-- C9 counterexample: origination's 51 writes are separate auto-committed
`db.Create` calls with no transaction, so the state after the loan insert
and only 3 repayment inserts is a committed, observable store state: the
loan exists with 3 (≠ 50) repayment rows. -/
theorem spec_c9_counterexample :
    (findLoan (createLoanUpTo emptyDB 1 1000 3) 1).isSome = true ∧
    (repaymentsOf (createLoanUpTo emptyDB 1 1000 3) 1).length = 3 ∧
    (3 : Nat) ≠ 50 :=
  ⟨rfl, rfl, by omega⟩

/-- C9 amended: origination performs its 51 row writes as independent
single-row commits; after the loan insert and the first `k ≤ 50` repayment
inserts the loan already exists with exactly `k` schedule rows, and only the
full sequence (`k = 50`) coincides with the complete origination state. -/
theorem spec_c9 (db : DB) (b : Nat) (amt : ℚ) (k : Nat) (h : Reach db)
    (hk : k ≤ 50) :
    createLoanUpTo db b amt 50 = (createLoan db b amt).1 ∧
    findLoan (createLoanUpTo db b amt k) (createLoan db b amt).2.id =
      some (createLoan db b amt).2 ∧
    (repaymentsOf (createLoanUpTo db b amt k)
      (createLoan db b amt).2.id).length = k := by
  have hw := reach_wf h
  refine ⟨createLoanUpTo_full db b amt, findLoan_createLoanUpTo hw b amt k, ?_⟩
  rw [repaymentsOf_createLoanUpTo hw b amt k, List.length_map,
    List.length_range]
  omega

theorem spec_c9_witness :
    createLoanUpTo emptyDB 1 1000 50 = (createLoan emptyDB 1 1000).1 ∧
    findLoan (createLoanUpTo emptyDB 1 1000 3) 1 =
      some (createLoan emptyDB 1 1000).2 ∧
    (repaymentsOf (createLoanUpTo emptyDB 1 1000 3) 1).length = 3 :=
  spec_c9 emptyDB 1 1000 3 Reach.empty (by omega)

/-- C10: on a cache hit `getOutstanding` returns the cached value verbatim
as a JSON string, while on a miss for the same loan it returns the numeric
balance read from the store (and repopulates the cache with the `%f`
rendering, TTL 600 s): the dynamic type of `remaining_balance` differs
between the two branches. -/
theorem spec_c10 (db : DB) (c : Cache) (id : Nat) (l : Loan) (v : String)
    (hhit : cacheGet c (outKey id) = some v)
    (hl : findLoan db id = some l) :
    getOutstanding db c id = (c, GetResult.ok (JsonVal.str v)) ∧
    getOutstanding db (cacheDel c (outKey id)) id =
      (cacheSet (cacheDel c (outKey id)) (outKey id)
        (fmtF l.remainingBalance) 600,
       GetResult.ok (JsonVal.num l.remainingBalance)) ∧
    ∀ s q, JsonVal.str s ≠ JsonVal.num q := by
  refine ⟨?_, ?_, fun s q hq => JsonVal.noConfusion hq⟩
  · unfold getOutstanding
    rw [hhit]
  · unfold getOutstanding
    rw [cacheGet_cacheDel_self, hl]

theorem spec_c10_witness :
    getOutstanding (createLoan emptyDB 1 1000).1
      (cacheSet emptyCache (outKey 1) "1100.000000" 600) 1 =
      (cacheSet emptyCache (outKey 1) "1100.000000" 600,
       GetResult.ok (JsonVal.str "1100.000000")) ∧
    getOutstanding (createLoan emptyDB 1 1000).1
      (cacheDel (cacheSet emptyCache (outKey 1) "1100.000000" 600) (outKey 1)) 1 =
      (cacheSet (cacheDel (cacheSet emptyCache (outKey 1) "1100.000000" 600)
         (outKey 1)) (outKey 1)
        (fmtF (createLoan emptyDB 1 1000).2.remainingBalance) 600,
       GetResult.ok (JsonVal.num (createLoan emptyDB 1 1000).2.remainingBalance)) ∧
    ∀ s q, JsonVal.str s ≠ JsonVal.num q :=
  spec_c10 (createLoan emptyDB 1 1000).1
    (cacheSet emptyCache (outKey 1) "1100.000000" 600) 1
    (createLoan emptyDB 1 1000).2 "1100.000000" rfl rfl

/-- C7: on a cache miss for an existing loan, `isDelinquent` answers true
iff at least 2 rows remain among the loan's unpaid repayments restricted to
the two highest unpaid week numbers (the spec-side `twoHighestUnpaid`
reading) — which is exactly what the code's `count >= 2` computes, since the
SQL `LIMIT` on the `count(*)` query does not cap the aggregate; boundary
cases: exactly one unpaid week is never delinquent, 50 unpaid weeks (a
fresh loan) is delinquent. -/
theorem spec_c7 (db : DB) (c : Cache) (id : Nat) (l : Loan)
    (hmiss : cacheGet c (delKey id) = none) (hl : findLoan db id = some l) :
    (isDelinquent db c id).2 =
      DelResult.ok (decide (2 ≤ (twoHighestUnpaid db l.id).length)) ∧
    ((unpaidWeeks db l.id).length = 1 →
      (isDelinquent db c id).2 = DelResult.ok false) ∧
    ((unpaidWeeks db l.id).length = 50 →
      (isDelinquent db c id).2 = DelResult.ok true) ∧
    (isDelinquent db c id).1 =
      cacheSet c (delKey id)
        (formatBool (decide (2 ≤
          ((repaymentsOf db l.id).filter (fun r => !r.paid)).length))) 600 := by
  have hcount : ((repaymentsOf db l.id).filter (fun r => !r.paid)).length =
      (unpaidWeeks db l.id).length := (List.length_map _ _).symm
  have htake : (twoHighestUnpaid db l.id).length =
      min 2 (unpaidWeeks db l.id).length := by
    unfold twoHighestUnpaid
    rw [List.length_take, length_sortDesc]
  have hcomp : isDelinquent db c id =
      (cacheSet c (delKey id)
        (formatBool (decide (2 ≤
          ((repaymentsOf db l.id).filter (fun r => !r.paid)).length))) 600,
       DelResult.ok (decide (2 ≤
         ((repaymentsOf db l.id).filter (fun r => !r.paid)).length))) := by
    unfold isDelinquent
    rw [hmiss, hl]
  refine ⟨?_, ?_, ?_, ?_⟩
  · rw [hcomp]
    have : decide (2 ≤ (twoHighestUnpaid db l.id).length) =
        decide (2 ≤ ((repaymentsOf db l.id).filter (fun r => !r.paid)).length) := by
      rw [htake, hcount]
      exact decide_eq_decide.mpr (by omega)
    rw [this]
  · intro h1
    rw [hcomp]
    have : ((repaymentsOf db l.id).filter (fun r => !r.paid)).length = 1 :=
      hcount.trans h1
    rw [this]
    rfl
  · intro h50
    rw [hcomp]
    have : ((repaymentsOf db l.id).filter (fun r => !r.paid)).length = 50 :=
      hcount.trans h50
    rw [this]
    rfl
  · rw [hcomp]

theorem spec_c7_witness :
    (isDelinquent (createLoan emptyDB 1 1000).1 emptyCache 1).2 =
      DelResult.ok (decide (2 ≤
        (twoHighestUnpaid (createLoan emptyDB 1 1000).1 1).length)) ∧
    (unpaidWeeks (createLoan emptyDB 1 1000).1 1).length = 50 ∧
    (isDelinquent (createLoan emptyDB 1 1000).1 emptyCache 1).2 =
      DelResult.ok true :=
  ⟨(spec_c7 (createLoan emptyDB 1 1000).1 emptyCache 1
      (createLoan emptyDB 1 1000).2 rfl rfl).1,
   rfl,
   (spec_c7 (createLoan emptyDB 1 1000).1 emptyCache 1
      (createLoan emptyDB 1 1000).2 rfl rfl).2.2.1 rfl⟩

/-- C2 counterexample: the two Redis calls live inside the transaction
closure, before commit. With the commit itself failing, the store is rolled
back to its pre-call state while the outstanding-balance cache entry has
already been overwritten with the would-be new balance — a partial mutation
is observable, contradicting "the cache is written only after the unit of
work commits successfully / no partial mutation is observable". -/
theorem spec_c2_counterexample :
    (makePayment (createLoan emptyDB 1 1000).1 emptyCache 1 commitFail).2.2 =
      PayResult.transactionFailed ∧
    (makePayment (createLoan emptyDB 1 1000).1 emptyCache 1 commitFail).1 =
      (createLoan emptyDB 1 1000).1 ∧
    cacheGet emptyCache (outKey 1) = none ∧
    cacheGet
      (makePayment (createLoan emptyDB 1 1000).1 emptyCache 1 commitFail).2.1
      (outKey 1) =
      some (fmtF ((createLoan emptyDB 1 1000).2.remainingBalance -
        (createLoan emptyDB 1 1000).2.weeklyPayment)) :=
  ⟨rfl, rfl, rfl, rfl⟩

/-- C2 amended: inside the unit of work, a failure of either row save rolls
everything back — store and cache both unchanged — and surfaces
`TransactionFailed`; the cache writes (balance entry overwritten with the
new balance at TTL 600 s, delinquency entry removed) are executed inside the
transaction before commit, so they are present after a successful commit but
equally after a failed commit, in which case the store alone is rolled
back. -/
theorem spec_c2 (db : DB) (c : Cache) (id : Nat) (l : Loan) (rep : Repayment)
    (hl : findLoan db id = some l) (hr : minUnpaid db l.id = some rep) :
    (∀ f2 f3, makePayment db c id ⟨true, f2, f3⟩ =
      (db, c, PayResult.transactionFailed)) ∧
    (∀ f3, makePayment db c id ⟨false, true, f3⟩ =
      (db, c, PayResult.transactionFailed)) ∧
    makePayment db c id commitFail =
      (db, cacheDel (cacheSet c (outKey id)
        (fmtF (l.remainingBalance - l.weeklyPayment)) 600) (delKey id),
       PayResult.transactionFailed) ∧
    (makePayment db c id noFail).2.1 =
      cacheDel (cacheSet c (outKey id)
        (fmtF (l.remainingBalance - l.weeklyPayment)) 600) (delKey id) := by
  refine ⟨?_, ?_, ?_, ?_⟩
  · intro f2 f3
    unfold makePayment
    rw [hl]
    simp only [Option.getD_some]
    rw [hr]
    simp
  · intro f3
    unfold makePayment
    rw [hl]
    simp only [Option.getD_some]
    rw [hr]
    simp
  · unfold makePayment
    rw [hl]
    simp only [Option.getD_some]
    rw [hr]
    simp [commitFail]
  · unfold makePayment
    rw [hl]
    simp only [Option.getD_some]
    rw [hr]
    simp [noFail]

/-- C4: for every positive principal P, `createLoan` fixes the interest
rate at 0.10, derives weekly_payment = P*1.10/50 and remaining_balance =
P*1.10, and writes exactly 50 repayment rows for the new loan, with week
numbers 1..50, all unpaid. -/
theorem spec_c4 (db : DB) (b : Nat) (P : ℚ) (h : Reach db) (hP : 0 < P) :
    (createLoan db b P).2.interestRate = 1 / 10 ∧
    (createLoan db b P).2.weeklyPayment = P * (1 + 1 / 10) / 50 ∧
    (createLoan db b P).2.remainingBalance = P * (1 + 1 / 10) ∧
    repaymentsOf (createLoan db b P).1 (createLoan db b P).2.id =
      (List.range 50).map (fun i =>
        { id := db.nextRepID + i, loanID := (createLoan db b P).2.id,
          weekNo := i + 1, paid := false }) ∧
    (repaymentsOf (createLoan db b P).1 (createLoan db b P).2.id).length =
      50 := by
  have hw := reach_wf h
  have hrows := repaymentsOf_createLoanUpTo hw b P 50
  rw [createLoanUpTo_full db b P] at hrows
  have hmin : min 50 50 = 50 := by omega
  rw [hmin] at hrows
  exact ⟨rfl, rfl, rfl, hrows,
    by rw [hrows, List.length_map, List.length_range]⟩

theorem spec_c4_witness :
    (createLoan emptyDB 1 1000).2.interestRate = 1 / 10 ∧
    (createLoan emptyDB 1 1000).2.weeklyPayment = 1000 * (1 + 1 / 10) / 50 ∧
    (createLoan emptyDB 1 1000).2.remainingBalance = 1000 * (1 + 1 / 10) ∧
    repaymentsOf (createLoan emptyDB 1 1000).1 1 =
      (List.range 50).map (fun i =>
        { id := 1 + i, loanID := 1, weekNo := i + 1, paid := false }) ∧
    (repaymentsOf (createLoan emptyDB 1 1000).1 1).length = 50 :=
  spec_c4 emptyDB 1 1000 Reach.empty (by norm_num)

/-- C1: for every reachable store, existing loan and pending repayment, a
fully successful `makePayment` marks exactly the unpaid row with the
smallest week number as paid — that row was unpaid, belongs to the loan,
and has the minimal week among the loan's unpaid rows — decrements the
loan's balance by its fixed weekly payment, returns the new balance, and
modifies no other repayment row (the paid-week list grows by exactly that
one week). -/
theorem spec_c1 (db : DB) (c : Cache) (id : Nat) (l : Loan) (rep : Repayment)
    (h : Reach db) (hl : findLoan db id = some l)
    (hr : minUnpaid db l.id = some rep) :
    rep.paid = false ∧ rep.loanID = l.id ∧
    (∀ r ∈ db.repayments, r.loanID = l.id → r.paid = false →
      rep.weekNo ≤ r.weekNo) ∧
    (makePayment db c id noFail).2.2 =
      PayResult.success (l.remainingBalance - l.weeklyPayment) ∧
    (makePayment db c id noFail).1.repayments =
      updateBy Repayment.id db.repayments { rep with paid := true } ∧
    (∀ r ∈ db.repayments, r.id ≠ rep.id →
      r ∈ (makePayment db c id noFail).1.repayments) ∧
    { rep with paid := true } ∈ (makePayment db c id noFail).1.repayments ∧
    findLoan (makePayment db c id noFail).1 id =
      some { l with remainingBalance := l.remainingBalance - l.weeklyPayment } ∧
    paidWeeks (makePayment db c id noFail).1 l.id =
      paidWeeks db l.id ++ [rep.weekNo] := by
  have hw := reach_wf h
  have hlmem : l ∈ db.loans := List.mem_of_find?_eq_some hl
  obtain ⟨r0, k, hk50, hs, hb⟩ := hw.loanSched l hlmem
  have hk : k < 50 := by
    rcases Nat.lt_or_ge k 50 with h' | h'
    · exact h'
    · exfalso
      have hkk : k = 50 := by omega
      subst hkk
      rw [minUnpaid_of_schedule_full hs] at hr
      exact Option.noConfusion hr
  have hrep : rep = ⟨r0 + k, l.id, k + 1, false⟩ := by
    rw [minUnpaid_of_schedule hs hk] at hr
    injection hr.symm
  subst hrep
  have hrmem : (⟨r0 + k, l.id, k + 1, false⟩ : Repayment) ∈ db.repayments := by
    apply List.mem_of_mem_filter (p := fun r => r.loanID == l.id)
    show _ ∈ repaymentsOf db l.id
    rw [hs]
    exact schedule_unpaid_row_mem hk
  have heq := makePayment_noFail_eq c hw hl hs hk
  refine ⟨rfl, rfl, ?_, ?_, ?_, ?_, ?_, ?_, ?_⟩
  · intro r hrm hrl hrp
    have hrin : r ∈ repaymentsOf db l.id :=
      List.mem_filter.mpr ⟨hrm, by simp [hrl]⟩
    rw [hs] at hrin
    rcases List.mem_append.mp hrin with hfirst | hsecond
    · obtain ⟨i, _, rfl⟩ := List.mem_map.mp hfirst
      simp at hrp
    · obtain ⟨i, _, rfl⟩ := List.mem_map.mp hsecond
      show k + 1 ≤ i + k + 1
      omega
  · rw [heq]
  · rw [heq]
  · intro r hrm hrne
    rw [heq]
    exact updateBy_mem_of_ne hrm (by simpa using hrne)
  · rw [heq]
    exact updateBy_mem_self hrmem rfl
  · rw [heq]
    have hlid : l.id = id := by
      have := List.find?_some hl
      simpa using this
    exact find?_updateBy hl rfl hlid
  · have hafter : repaymentsOf (makePayment db c id noFail).1 l.id =
        schedule l.id r0 (k + 1) := by
      rw [heq]
      exact repaymentsOf_update_paid hw hs hk
    rw [paidWeeks_of_schedule hafter, paidWeeks_of_schedule hs,
      List.range_succ, List.map_append]
    rfl

theorem spec_c1_witness :
    (makePayment (createLoan emptyDB 1 1000).1 emptyCache 1 noFail).2.2 =
      PayResult.success ((createLoan emptyDB 1 1000).2.remainingBalance -
        (createLoan emptyDB 1 1000).2.weeklyPayment) :=
  (spec_c1 (createLoan emptyDB 1 1000).1 emptyCache 1
    (createLoan emptyDB 1 1000).2 ⟨1, 1, 1, false⟩
    (Reach.create emptyDB 1 1000 Reach.empty) rfl rfl).2.2.2.1

/-- C5: on every reachable store, each loan's paid repayments form a prefix
1..k of the 50-week schedule and its remaining balance equals
P*1.10 − weekly_payment*k; and a single `makePayment` call moves a loan's
paid-prefix length from k to either k (no change) or k+1 — monotone
(false→true only), lowest week first, at most one row per call, and only
when the call returns success. -/
theorem spec_c5 (db : DB) (h : Reach db) :
    ∀ l ∈ db.loans,
      (∃ k, k ≤ 50 ∧ paidWeeks db l.id = (List.range k).map (· + 1) ∧
        l.remainingBalance = l.amount * (1 + 1 / 10) - l.weeklyPayment * k) ∧
      (∀ c id f, ∃ k k',
        paidWeeks db l.id = (List.range k).map (· + 1) ∧
        paidWeeks (makePayment db c id f).1 l.id =
          (List.range k').map (· + 1) ∧
        k ≤ k' ∧ k' ≤ k + 1 ∧
        ((∀ q, (makePayment db c id f).2.2 ≠ PayResult.success q) →
          k' = k)) := by
  have hw := reach_wf h
  intro l hlmem
  obtain ⟨r0, k, hk50, hs, hb⟩ := hw.loanSched l hlmem
  refine ⟨⟨k, hk50, paidWeeks_of_schedule hs, hb⟩, ?_⟩
  intro c id f
  rcases makePayment_master db c id f hw with ⟨hdb, hns⟩ |
    ⟨l0, r00, k0, hl0, hs0, hk0, hf, hb0, heq⟩
  · exact ⟨k, k, paidWeeks_of_schedule hs,
      by rw [hdb]; exact paidWeeks_of_schedule hs, le_refl k, by omega,
      fun _ => rfl⟩
  · have hl0mem : l0 ∈ db.loans := List.mem_of_find?_eq_some hl0
    by_cases hid : l.id = l0.id
    · have hll : l = l0 :=
        List.inj_on_of_nodup_map hw.loanNodup hlmem hl0mem hid
      subst hll
      refine ⟨k0, k0 + 1, paidWeeks_of_schedule hs0, ?_, by omega, by omega,
        ?_⟩
      · have hafter : repaymentsOf (makePayment db c id f).1 l.id =
            schedule l.id r00 (k0 + 1) := by
          rw [heq]
          exact repaymentsOf_update_paid hw hs0 hk0
        exact paidWeeks_of_schedule hafter
      · intro hns
        exfalso
        exact hns _ (by rw [heq])
    · refine ⟨k, k, paidWeeks_of_schedule hs, ?_, le_refl k, by omega,
        fun _ => rfl⟩
      have hafter : repaymentsOf (makePayment db c id f).1 l.id =
          repaymentsOf db l.id := by
        rw [heq]
        exact repaymentsOf_update_other hw hs0 hk0 hid
      unfold paidWeeks
      rw [hafter]
      exact paidWeeks_of_schedule hs

theorem spec_c5_witness :
    (∃ k, k ≤ 50 ∧
      paidWeeks (createLoan emptyDB 1 1000).1 (createLoan emptyDB 1 1000).2.id =
        (List.range k).map (· + 1) ∧
      (createLoan emptyDB 1 1000).2.remainingBalance =
        (createLoan emptyDB 1 1000).2.amount * (1 + 1 / 10) -
          (createLoan emptyDB 1 1000).2.weeklyPayment * k) ∧
    (∃ k k',
      paidWeeks (createLoan emptyDB 1 1000).1 (createLoan emptyDB 1 1000).2.id =
        (List.range k).map (· + 1) ∧
      paidWeeks (makePayment (createLoan emptyDB 1 1000).1 emptyCache 1
        noFail).1 (createLoan emptyDB 1 1000).2.id =
        (List.range k').map (· + 1) ∧
      k ≤ k' ∧ k' ≤ k + 1 ∧
      ((∀ q, (makePayment (createLoan emptyDB 1 1000).1 emptyCache 1
          noFail).2.2 ≠ PayResult.success q) → k' = k)) :=
  have h := spec_c5 (createLoan emptyDB 1 1000).1
    (Reach.create emptyDB 1 1000 Reach.empty) (createLoan emptyDB 1 1000).2
    (List.mem_cons_self _ _)
  ⟨h.1, h.2 emptyCache 1 noFail⟩

theorem spec_c2_witness :
    makePayment (createLoan emptyDB 1 1000).1 emptyCache 1 commitFail =
      ((createLoan emptyDB 1 1000).1,
       cacheDel (cacheSet emptyCache (outKey 1)
         (fmtF ((createLoan emptyDB 1 1000).2.remainingBalance -
           (createLoan emptyDB 1 1000).2.weeklyPayment)) 600) (delKey 1),
       PayResult.transactionFailed) :=
  (spec_c2 (createLoan emptyDB 1 1000).1 emptyCache 1
    (createLoan emptyDB 1 1000).2 ⟨1, 1, 1, false⟩ rfl rfl).2.2.1

end Billing
